import Mathlib

set_option autoImplicit false

/-!
Verification of the CycleGAN training code of gg-music/aia_music_project.

The development shallowly embeds the control flow of `src/cyclegan/training.py`
(the learning-rate finder `find_lr`, the training loop `train`, and the CLI
argument validation) and of `src/gtzan.py` (the genre-classifier entry point),
together with the audio codec helpers that `training.py` imports from `data.py`.

Framework-computed quantities (tensor losses, gradients, network weights) are
modelled abstractly: per-batch loss values are inputs to the embedding, and the
weights of the generator and the discriminator live in abstract types that are
updated once per `apply_gradients` call.  Loss scalars are modelled by `ℚ`,
learning rates by a scalar type parameter (`ℚ` for concrete evaluation, `ℝ`
where the code takes a real power).
-/

namespace AiaMusic

/-- Losses computed for one batch: `gen_mae`, `gen_loss` and `disc_loss`
(training.py lines 109-111 / 229-231). -/
structure LossTriple where
  gen_mae : ℚ
  gen_loss : ℚ
  disc_loss : ℚ
deriving DecidableEq

/-- State of the `find_lr` batch loop (training.py lines 62-145): the current
learning rate of the two optimizers, the recorded learning rates `lrs`, the
recorded losses (the `losses` dict) and the best losses seen so far (the
`best_losses` dict).  `R` is the scalar type of the learning rate. -/
structure FindLrState (R : Type) where
  lr : R
  lrs : List R
  losses_gen_mae : List ℚ
  losses_gen_loss : List ℚ
  losses_disc_loss : List ℚ
  best_gen_mae : ℚ
  best_gen_loss : ℚ
  best_disc_loss : ℚ

/-- Initial `find_lr` state (training.py lines 66-87): the learning rate starts
at `start_lr`, the record lists are empty and every best loss starts at `1e9`. -/
def find_lr_init {R : Type} (start_lr : R) : FindLrState R :=
  ⟨start_lr, [], [], [], [], 1000000000, 1000000000, 1000000000⟩

/-- One iteration of the `find_lr` loop body (training.py lines 126-142): the
current learning rate is appended to `lrs` and then multiplied by `lr_mult`,
the batch losses are appended to the `losses` lists, and each best loss is
lowered to the current loss when the current loss is smaller. -/
def find_lr_step {R : Type} [Mul R] (lrm : R) (t : LossTriple) (st : FindLrState R) :
    FindLrState R :=
  { st with
    lrs := st.lrs ++ [st.lr]
    lr := st.lr * lrm
    losses_gen_mae := st.losses_gen_mae ++ [t.gen_mae]
    losses_gen_loss := st.losses_gen_loss ++ [t.gen_loss]
    losses_disc_loss := st.losses_disc_loss ++ [t.disc_loss]
    best_gen_mae := if st.best_gen_mae > t.gen_mae then t.gen_mae else st.best_gen_mae
    best_gen_loss := if st.best_gen_loss > t.gen_loss then t.gen_loss else st.best_gen_loss
    best_disc_loss := if st.best_disc_loss > t.disc_loss then t.disc_loss else st.best_disc_loss }

/-- The abort test of `find_lr` (training.py lines 143-145), evaluated after the
best losses have been updated for the current step: the loop breaks when some
current loss is `>=` 100 times the corresponding best loss. -/
def find_lr_break {R : Type} (st : FindLrState R) (t : LossTriple) : Bool :=
  decide (t.gen_mae ≥ 100 * st.best_gen_mae) ||
    decide (t.gen_loss ≥ 100 * st.best_gen_loss) ||
      decide (t.disc_loss ≥ 100 * st.best_disc_loss)

/-- The `find_lr` batch loop (training.py lines 99-145): `i` is the next batch
index, the second numeric argument is the number of remaining iterations, and
`stepLosses i` gives the (framework-computed) losses of batch `i`. -/
def find_lr_loop {R : Type} [Mul R] (lrm : R) (stepLosses : ℕ → LossTriple) :
    ℕ → ℕ → FindLrState R → FindLrState R
  | _, 0, st => st
  | i, n + 1, st =>
    let t := stepLosses i
    let st2 := find_lr_step lrm t st
    if find_lr_break st2 t then st2 else find_lr_loop lrm stepLosses (i + 1) n st2

/-- The learning-rate multiplier of `find_lr` (training.py line 75):
`lr_mult = (end_lr / start_lr) ** (1 / epoch_size)`. -/
noncomputable def lr_mult (start_lr end_lr : ℝ) (epoch_size : ℕ) : ℝ :=
  (end_lr / start_lr) ^ ((1 : ℝ) / (epoch_size : ℝ))

/-- The `find_lr` run (training.py lines 62-145): one epoch of `epoch_size`
batches starting from the initial state. -/
noncomputable def find_lr (start_lr end_lr : ℝ) (stepLosses : ℕ → LossTriple)
    (epoch_size : ℕ) : FindLrState ℝ :=
  find_lr_loop (lr_mult start_lr end_lr epoch_size) stepLosses 0 epoch_size
    (find_lr_init start_lr)

/-- Record invariant of the `find_lr` loop: the learning rate is positive, the
recorded learning rates are strictly increasing and all smaller than the
current rate, and the learning rates are recorded in lockstep with the three
loss lists. -/
def LrRecordInvariant (st : FindLrState ℝ) : Prop :=
  0 < st.lr ∧ (∀ x ∈ st.lrs, x < st.lr) ∧ st.lrs.Pairwise (· < ·) ∧
    st.lrs.length = st.losses_gen_mae.length ∧
    st.lrs.length = st.losses_gen_loss.length ∧
    st.lrs.length = st.losses_disc_loss.length

/-- Gradient-tape and optimizer events of the adversarial loops: opening the
two tapes (`gen_tape`, `disc_tape`, training.py line 220) and the two
`apply_gradients` calls (lines 238-239). -/
inductive TapeEvent where
  | genTapeOpened
  | discTapeOpened
  | genApplyGradients
  | discApplyGradients
deriving DecidableEq, BEq

/-- The tape and optimizer events of one batch of `train` (training.py lines
220 and 238-239): two separate gradient tapes are opened, then the generator's
gradients and the discriminator's gradients are each applied exactly once. -/
def batchTapeEvents : List TapeEvent :=
  [.genTapeOpened, .discTapeOpened, .genApplyGradients, .discApplyGradients]

/-- Paths of the files written by one `train` run: `history.csv`, the three
spectrogram images and the reconstructed audio of each epoch output directory
(named after `(epoch + 1) + epoch_offset`), and the two weight files
`generator.h5` and `discriminator.h5` under the checkpoint prefix. -/
inductive FileKey where
  | historyCsv
  | spectrogramInput (epoch : ℕ)
  | spectrogramTrue (epoch : ℕ)
  | spectrogramPred (epoch : ℕ)
  | audioWav (epoch : ℕ)
  | generatorH5
  | discriminatorH5
deriving DecidableEq

/-- Contents of the files written by `train`.  A weight file carries exactly
one sub-network's weights and nothing else (Keras `save_weights`, training.py
lines 286-287); `history.csv` carries the six per-epoch loss columns (lines
264-272); an epoch audio file is reconstructed from the generator prediction
and the `phase` tensor passed to `generate_audio` (line 282). -/
inductive FileData (P D Ph : Type) where
  | genWeights (w : P)
  | discWeights (w : D)
  | historyCsv (gen_mae gen_mae_val gen_loss gen_loss_val disc_loss disc_loss_val : List ℚ)
  | audioWav (phase : Ph)
  | imagePng
deriving DecidableEq

/-- Overwriting file write: a later write to the same path replaces the
earlier one, so only the most recent content of each path is retained. -/
def fsWrite {P D Ph : Type} (fs : List (FileKey × FileData P D Ph)) (k : FileKey)
    (v : FileData P D Ph) : List (FileKey × FileData P D Ph) :=
  (k, v) :: fs.filter (fun e => !decide (e.1 = k))

/-- State threaded through the `train` epoch loop (training.py lines 157-292):
the abstract generator and discriminator weights, the six history lists
(lines 206-208), the files written so far, and the trace of tape/optimizer
events. -/
structure TrainState (P D Ph : Type) where
  genParams : P
  discParams : D
  gen_mae_list : List ℚ
  gen_mae_val_list : List ℚ
  gen_loss_list : List ℚ
  gen_loss_val_list : List ℚ
  disc_loss_list : List ℚ
  disc_loss_val_list : List ℚ
  fs : List (FileKey × FileData P D Ph)
  events : List TapeEvent

/-- The per-epoch loss totals (training.py lines 211-213): all six start at 0
at the beginning of each epoch; the three validation totals are never written
to afterwards. -/
structure EpochTotals where
  gen_mae_total : ℚ
  gen_mae_val_total : ℚ
  gen_loss_total : ℚ
  gen_loss_val_total : ℚ
  disc_loss_total : ℚ
  disc_loss_val_total : ℚ

/-- Inputs of a `train` run.  `gup` (resp. `dup`) abstracts the effect on the
generator (resp. discriminator) weights of one `apply_gradients` call of its
own optimizer (training.py lines 238-239); `batchLosses e i` gives the
framework-computed losses of batch `i` in epoch `e`; `phase` is the second
component returned by `forward_transform` on the test audio (line 195). -/
structure TrainConfig (P D Ph : Type) where
  gup : P → P
  dup : D → D
  batchLosses : ℕ → ℕ → LossTriple
  phase : Ph
  epoch_size : ℕ
  epoch_offset : ℕ

/-- One batch of the `train` inner loop (training.py lines 217-254): under the
two gradient tapes, the generator's gradients and then the discriminator's
gradients are applied once each, and the three training totals accumulate the
batch losses.  The validation totals are not touched. -/
def train_batch {P D Ph : Type} (cfg : TrainConfig P D Ph) (t : LossTriple)
    (acc : TrainState P D Ph × EpochTotals) : TrainState P D Ph × EpochTotals :=
  ({ acc.1 with
      genParams := cfg.gup acc.1.genParams
      discParams := cfg.dup acc.1.discParams
      events := acc.1.events ++ batchTapeEvents },
   { acc.2 with
      gen_mae_total := acc.2.gen_mae_total + t.gen_mae
      gen_loss_total := acc.2.gen_loss_total + t.gen_loss
      disc_loss_total := acc.2.disc_loss_total + t.disc_loss })

/-- The batch loop of epoch `e` (training.py line 217): processes batches
`0 .. n-1` in order. -/
def train_batches {P D Ph : Type} (cfg : TrainConfig P D Ph) (e : ℕ) :
    ℕ → TrainState P D Ph × EpochTotals → TrainState P D Ph × EpochTotals
  | 0, acc => acc
  | n + 1, acc => train_batch cfg (cfg.batchLosses e n) (train_batches cfg e n acc)

/-- One epoch of `train` (training.py lines 210-292): reset the totals, run
the batches, append the epoch averages to the six history lists (lines
257-262; the validation totals are still 0), overwrite `history.csv` (line
272), write the three spectrogram images and the reconstructed audio of the
epoch output directory (lines 280-282; the audio is written with the `phase`
tensor computed once at line 195), and overwrite the two weight files (lines
286-287). -/
def train_epoch {P D Ph : Type} (cfg : TrainConfig P D Ph) (e : ℕ)
    (st : TrainState P D Ph) : TrainState P D Ph :=
  let acc := train_batches cfg e cfg.epoch_size (st, ⟨0, 0, 0, 0, 0, 0⟩)
  let st1 := acc.1
  let tot := acc.2
  let gen_mae_list := st1.gen_mae_list ++ [tot.gen_mae_total / (cfg.epoch_size : ℚ)]
  let gen_mae_val_list := st1.gen_mae_val_list ++ [tot.gen_mae_val_total / (cfg.epoch_size : ℚ)]
  let gen_loss_list := st1.gen_loss_list ++ [tot.gen_loss_total / (cfg.epoch_size : ℚ)]
  let gen_loss_val_list := st1.gen_loss_val_list ++ [tot.gen_loss_val_total / (cfg.epoch_size : ℚ)]
  let disc_loss_list := st1.disc_loss_list ++ [tot.disc_loss_total / (cfg.epoch_size : ℚ)]
  let disc_loss_val_list :=
    st1.disc_loss_val_list ++ [tot.disc_loss_val_total / (cfg.epoch_size : ℚ)]
  let ep := e + 1 + cfg.epoch_offset
  let fs1 := fsWrite st1.fs .historyCsv
    (.historyCsv gen_mae_list gen_mae_val_list gen_loss_list gen_loss_val_list
      disc_loss_list disc_loss_val_list)
  let fs2 := fsWrite fs1 (.spectrogramInput ep) .imagePng
  let fs3 := fsWrite fs2 (.spectrogramTrue ep) .imagePng
  let fs4 := fsWrite fs3 (.spectrogramPred ep) .imagePng
  let fs5 := fsWrite fs4 (.audioWav ep) (.audioWav cfg.phase)
  let fs6 := fsWrite fs5 .generatorH5 (.genWeights st1.genParams)
  let fs7 := fsWrite fs6 .discriminatorH5 (.discWeights st1.discParams)
  { st1 with
    gen_mae_list := gen_mae_list
    gen_mae_val_list := gen_mae_val_list
    gen_loss_list := gen_loss_list
    gen_loss_val_list := gen_loss_val_list
    disc_loss_list := disc_loss_list
    disc_loss_val_list := disc_loss_val_list
    fs := fs7 }

/-- The initial `train` state (training.py lines 158-162 and 206-208):
initial weights (possibly restored from the checkpoint files), empty history
lists, no files written yet by this run and no events. -/
def trainInit {P D Ph : Type} (p0 : P) (d0 : D) : TrainState P D Ph :=
  ⟨p0, d0, [], [], [], [], [], [], [], []⟩

/-- The epoch loop of `train` (training.py line 210): runs epochs `0 .. n-1`
in order. -/
def train_epochs {P D Ph : Type} (cfg : TrainConfig P D Ph) :
    ℕ → TrainState P D Ph → TrainState P D Ph
  | 0, st => st
  | n + 1, st => train_epoch cfg n (train_epochs cfg n st)

/-- The `train` entry point (training.py lines 157-292). -/
def train {P D Ph : Type} (cfg : TrainConfig P D Ph) (p0 : P) (d0 : D)
    (epochs : ℕ) : TrainState P D Ph :=
  train_epochs cfg epochs (trainInit p0 d0)

/-- Number of sub-networks whose weights a single written file persists. -/
def networksSaved {P D Ph : Type} : FileData P D Ph → ℕ
  | .genWeights _ => 1
  | .discWeights _ => 1
  | _ => 0

/-- The three validation columns of a history file, when the given content is
a history file. -/
def historyValColumns {P D Ph : Type} :
    Option (FileData P D Ph) → Option (List ℚ × List ℚ × List ℚ)
  | some (.historyCsv _ v1 _ v2 _ v3) => some (v1, v2, v3)
  | _ => none

/-- A concrete instantiation of the `train` inputs used for concrete runs:
the weights and the phase are natural numbers, and each `apply_gradients`
call increments the corresponding weight counter; one batch per epoch. -/
def cexConfig : TrainConfig ℕ ℕ ℕ :=
  ⟨Nat.succ, Nat.succ, fun _ _ => ⟨1, 1, 1⟩, 0, 1, 0⟩

/-- One argparse argument declaration of the CycleGAN trainer: the flag name
and whether the argument was declared with `required=True` (training.py lines
297-307). -/
structure ArgSpec where
  name : String
  required : Bool

/-- The argparse declarations of the CycleGAN trainer (training.py lines
296-308): `dataset_path`, `origin` and `target` are required, the rest are
optional. -/
def trainer_arg_specs : List ArgSpec :=
  [⟨"dataset_path", true⟩, ⟨"origin", true⟩, ⟨"target", true⟩, ⟨"gpu", false⟩,
    ⟨"epochs", false⟩, ⟨"epoch_offset", false⟩, ⟨"batch_size", false⟩,
    ⟨"gen_lr", false⟩, ⟨"disc_lr", false⟩, ⟨"validation_split", false⟩,
    ⟨"findlr", false⟩]

/-- Modelled from the spec: argparse itself is Python standard-library code
that is not part of this repository; following the spec ("Argument validation
raises on missing required CLI flags"), parsing the provided flag names
raises on the first declared `required=True` flag that is absent. -/
def parse_args (provided : List String) : Except String Unit :=
  match trainer_arg_specs.find? (fun s => s.required && !provided.contains s.name) with
  | some s => .error s.name
  | none => .ok ()

/-- The CLI arguments of the genre-classifier entry point `gtzan.py`: the
`type` argument and the optional `--directory`, `--model` and `--song`. -/
structure GtzanArgs where
  type : String
  directory : Option String
  model : Option String
  song : Option String

/-- Python truthiness of an optional string argument: `None` and the empty
string are falsy. -/
def falsy : Option String → Bool
  | none => true
  | some s => s.isEmpty

/-- The argument validation of `main` in gtzan.py (lines 33-45 and 101-108):
a `type` that is neither `train` nor `test` raises; in train mode a falsy
`--directory` raises; in test mode a falsy `--model` and then a falsy
`--song` raise.  `ok ()` means execution proceeds past validation into the
framework calls. -/
def gtzan_main (a : GtzanArgs) : Except String Unit :=
  if !(["train", "test"].contains a.type) then
    .error "Invalid type parameter. Should be train or test."
  else if a.type == "train" then
    if falsy a.directory then
      .error "File path to model should be passed in test mode."
    else .ok ()
  else
    if falsy a.model then
      .error "File path to model should be passed in test mode."
    else if falsy a.song then
      .error "Song path should be passed in test mode."
    else .ok ()

/-- Whether the entry point raised during argument validation. -/
def raises : Except String Unit → Bool
  | .error _ => true
  | .ok _ => false

/-- Modelled from the spec: padding of the final partial window of
`slice_magnitude` ("final partial window padding policy", spec section 4.1) —
a window of fewer than `w` frames is filled up with all-zero frames of height
`h`. -/
def padWindow (w h : ℕ) (win : List (List ℚ)) : List (List ℚ) :=
  win ++ List.replicate (w - win.length) (List.replicate h 0)

/-- Modelled from the spec: the chunking underlying `slice_magnitude` — the
frame list is cut into consecutive windows of at most `w` frames; the first
argument of the recursion is fuel bounding the number of windows. -/
def sliceChunks (w : ℕ) : ℕ → List (List ℚ) → List (List (List ℚ))
  | 0, _ => []
  | _, [] => []
  | fuel + 1, cols => cols.take w :: sliceChunks w fuel (cols.drop w)

/-- Modelled from the spec: `slice_magnitude` lives in `data.py`, which is not
under src (training.py only imports and calls it, lines 15-18, 197, 203).
Following spec section 4.1, a magnitude spectrogram of shape `(h, T)` is a
list of `T` time frames, each a list of `h` frequency values; slicing cuts
the frame list into consecutive windows of `w` frames, padding the final
partial window with zero frames. -/
def slice_magnitude (w h : ℕ) (mag : List (List ℚ)) : List (List (List ℚ)) :=
  (sliceChunks w mag.length mag).map (padWindow w h)

/-- Modelled from the spec: `join_magnitude_slices` lives in `data.py`, which
is not under src (training.py calls it at line 29 with the original phase
shape).  Following spec section 4.1, it reassembles predicted windows into a
full spectrogram: the windows are concatenated along the time axis and
cropped to the time length of the given original shape. -/
def join_magnitude_slices (slices : List (List (List ℚ))) (shape : ℕ × ℕ) :
    List (List ℚ) :=
  slices.flatten.take shape.2

/-- Modelled from the spec: `forward_transform` lives in `data.py`, which is
not under src (training.py calls it at line 195).  Following spec sections
2 and 4.1, the STFT-style time-frequency transform is modelled by the
discrete Fourier transform on `ZMod N`; the waveform is carried to its
spectrum, which is separated into the magnitude `|z|` and the unit phase
factor `z / |z|` (the phase of a zero coefficient is taken to be 1, matching
`exp(i * angle 0)`). -/
noncomputable def forward_transform {N : ℕ} [NeZero N] (audio : ZMod N → ℂ) :
    (ZMod N → ℝ) × (ZMod N → ℂ) :=
  (fun k => Complex.abs (ZMod.dft audio k),
   fun k =>
     if ZMod.dft audio k = 0 then 1
     else ZMod.dft audio k / (Complex.abs (ZMod.dft audio k) : ℂ))

/-- Modelled from the spec: `inverse_transform` of `data.py` (called at
training.py line 31) — the magnitude and the phase are recombined into the
spectrum and carried back to the waveform by the inverse transform. -/
noncomputable def inverse_transform {N : ℕ} [NeZero N] (mag : ZMod N → ℝ)
    (phase : ZMod N → ℂ) : ZMod N → ℂ :=
  ZMod.dft.symm (fun k => (mag k : ℂ) * phase k)

/-- Modelled from the spec: `amplitude_to_db` of `data.py` (called at
training.py lines 196, 202) — conversion of a magnitude to the dB scale with
a floor clamp at `amin` ("dB floor clamping to avoid -infinity", spec
section 4.1). -/
noncomputable def amplitude_to_db (amin : ℝ) (m : ℝ) : ℝ :=
  20 * Real.logb 10 (max m amin)

/-- Modelled from the spec: `db_to_amplitude` of `data.py` (called at
training.py line 30) — conversion back from the dB scale to a magnitude. -/
noncomputable def db_to_amplitude (d : ℝ) : ℝ :=
  (10 : ℝ) ^ (d / 20)

theorem find_lr_break_of_exceeds {R : Type} [Mul R] {lrm : R} {t : LossTriple}
    {st : FindLrState R}
    (h : 100 * (find_lr_step lrm t st).best_gen_mae < t.gen_mae ∨
         100 * (find_lr_step lrm t st).best_gen_loss < t.gen_loss ∨
         100 * (find_lr_step lrm t st).best_disc_loss < t.disc_loss) :
    find_lr_break (find_lr_step lrm t st) t = true := by
  rcases h with h | h | h <;>
    simp only [find_lr_break, Bool.or_eq_true, decide_eq_true_eq, ge_iff_le] <;>
    [exact Or.inl (Or.inl (le_of_lt h)); exact Or.inl (Or.inr (le_of_lt h));
      exact Or.inr (le_of_lt h)]

theorem find_lr_loop_stops {R : Type} [Mul R] (lrm : R) (f : ℕ → LossTriple)
    (i n : ℕ) (st : FindLrState R)
    (hb : find_lr_break (find_lr_step lrm (f i) st) (f i) = true) :
    find_lr_loop lrm f i (n + 1) st = find_lr_step lrm (f i) st := by
  simp only [find_lr_loop, hb, if_true]

/-- C3: in learning-rate-finder mode, after any step on which one of the
tracked losses (`gen_mae`, `gen_loss`, `disc_loss`) strictly exceeds 100 times
its best-seen value (the best values having just been updated with that step's
losses, training.py lines 137-145), the loop aborts: whatever the number of
remaining batches, the loop's result is exactly the state produced by that
step, so no further training step is performed. -/
theorem find_lr_aborts_on_divergence {R : Type} [Mul R] (lrm : R) (f : ℕ → LossTriple)
    (i n : ℕ) (st : FindLrState R)
    (h : 100 * (find_lr_step lrm (f i) st).best_gen_mae < (f i).gen_mae ∨
         100 * (find_lr_step lrm (f i) st).best_gen_loss < (f i).gen_loss ∨
         100 * (find_lr_step lrm (f i) st).best_disc_loss < (f i).disc_loss) :
    find_lr_loop lrm f i (n + 1) st = find_lr_step lrm (f i) st :=
  find_lr_loop_stops lrm f i n st (find_lr_break_of_exceeds h)

/-- Witness for `find_lr_aborts_on_divergence`: a concrete state with best
losses 1 and a step whose `gen_mae` is 200 aborts the loop at once. -/
theorem find_lr_aborts_on_divergence_witness :
    find_lr_loop (R := ℚ) 1 (fun _ => ⟨200, 1, 1⟩) 0 5 ⟨1, [], [], [], [], 1, 1, 1⟩ =
      find_lr_step 1 ⟨200, 1, 1⟩ ⟨1, [], [], [], [], 1, 1, 1⟩ :=
  find_lr_aborts_on_divergence 1 (fun _ => ⟨200, 1, 1⟩) 0 4 ⟨1, [], [], [], [], 1, 1, 1⟩
    (Or.inl (lt_of_eq_of_lt (mul_one 100) (by decide)))

/-- C9: the best-seen losses are updated with the current step's losses before
the abort comparison, and the comparison is `>=`; hence on any step where a
tracked loss evaluates to exactly 0 the abort condition `0 >= 100 * 0` (or
`0 >= 100 * best` with `best <= 0`) holds and the finder stops immediately,
performing no further step, even though that step's loss is a best-so-far. -/
theorem find_lr_aborts_on_zero_loss {R : Type} [Mul R] (lrm : R) (f : ℕ → LossTriple)
    (i n : ℕ) (st : FindLrState R)
    (h : (f i).gen_mae = 0 ∨ (f i).gen_loss = 0 ∨ (f i).disc_loss = 0) :
    find_lr_loop lrm f i (n + 1) st = find_lr_step lrm (f i) st := by
  apply find_lr_loop_stops
  simp only [find_lr_break, Bool.or_eq_true, decide_eq_true_eq, ge_iff_le]
  rcases h with h | h | h
  · refine Or.inl (Or.inl ?_)
    simp only [find_lr_step, h]
    split
    · simp
    · next hbest =>
      have : st.best_gen_mae ≤ 0 := le_of_not_lt hbest
      nlinarith
  · refine Or.inl (Or.inr ?_)
    simp only [find_lr_step, h]
    split
    · simp
    · next hbest =>
      have : st.best_gen_loss ≤ 0 := le_of_not_lt hbest
      nlinarith
  · refine Or.inr ?_
    simp only [find_lr_step, h]
    split
    · simp
    · next hbest =>
      have : st.best_disc_loss ≤ 0 := le_of_not_lt hbest
      nlinarith

/-- Witness for `find_lr_aborts_on_zero_loss`: from the initial state, a step
with `gen_mae = 0` aborts the loop immediately. -/
theorem find_lr_aborts_on_zero_loss_witness :
    find_lr_loop (R := ℚ) 1 (fun _ => ⟨0, 5, 5⟩) 0 3 (find_lr_init 1) =
      find_lr_step 1 ⟨0, 5, 5⟩ (find_lr_init 1) :=
  find_lr_aborts_on_zero_loss 1 (fun _ => ⟨0, 5, 5⟩) 0 2 (find_lr_init 1)
    (Or.inl rfl)

theorem one_lt_lr_mult {start_lr end_lr : ℝ} {epoch_size : ℕ}
    (h0 : 0 < start_lr) (h1 : start_lr < end_lr) (hn : 0 < epoch_size) :
    1 < lr_mult start_lr end_lr epoch_size := by
  have hx : (1 : ℝ) < end_lr / start_lr := (one_lt_div h0).mpr h1
  have hy : (0 : ℝ) < (1 : ℝ) / (epoch_size : ℝ) := by
    have : (0 : ℝ) < (epoch_size : ℝ) := by exact_mod_cast hn
    positivity
  rw [lr_mult]
  exact (Real.one_lt_rpow_iff_of_pos (lt_trans one_pos hx)).mpr (Or.inl ⟨hx, hy⟩)

theorem find_lr_step_invariant {lrm : ℝ} (hm : 1 < lrm) (t : LossTriple)
    {st : FindLrState ℝ} (h : LrRecordInvariant st) :
    LrRecordInvariant (find_lr_step lrm t st) := by
  obtain ⟨hpos, hlt, hpw, h1, h2, h3⟩ := h
  have hlr : st.lr < st.lr * lrm := (lt_mul_iff_one_lt_right hpos).mpr hm
  refine ⟨?_, ?_, ?_, ?_, ?_, ?_⟩
  · exact lt_trans hpos hlr
  · intro x hx
    rcases List.mem_append.mp hx with hx | hx
    · exact lt_trans (hlt x hx) hlr
    · rcases List.mem_singleton.mp hx with rfl
      exact hlr
  · refine List.pairwise_append.mpr ⟨hpw, List.pairwise_singleton _ _, ?_⟩
    intro a ha b hb
    rcases List.mem_singleton.mp hb with rfl
    exact hlt a ha
  · simp [find_lr_step, h1]
  · simp [find_lr_step, h2]
  · simp [find_lr_step, h3]

theorem find_lr_loop_invariant {lrm : ℝ} (hm : 1 < lrm) (f : ℕ → LossTriple) :
    ∀ (n i : ℕ) (st : FindLrState ℝ), LrRecordInvariant st →
      LrRecordInvariant (find_lr_loop lrm f i n st)
  | 0, _, _, h => h
  | n + 1, i, st, h => by
    simp only [find_lr_loop]
    split
    · exact find_lr_step_invariant hm _ h
    · exact find_lr_loop_invariant hm f n (i + 1) _ (find_lr_step_invariant hm _ h)

/-- C4: in `find_lr`, when `0 < start_lr < end_lr` and the epoch is nonempty,
the learning-rate multiplier `(end_lr / start_lr) ** (1 / epoch_size)` is
greater than 1, the sequence of recorded per-step learning rates is strictly
increasing, and the learning rates are recorded in lockstep with the three
recorded loss lists, so every recorded loss is associated with a larger
learning rate than the previous recorded loss. -/
theorem find_lr_lrs_strictly_increasing (start_lr end_lr : ℝ) (f : ℕ → LossTriple)
    (epoch_size : ℕ) (h0 : 0 < start_lr) (h1 : start_lr < end_lr)
    (hn : 0 < epoch_size) :
    1 < lr_mult start_lr end_lr epoch_size ∧
      (find_lr start_lr end_lr f epoch_size).lrs.Pairwise (· < ·) ∧
      (find_lr start_lr end_lr f epoch_size).lrs.length =
        (find_lr start_lr end_lr f epoch_size).losses_gen_mae.length ∧
      (find_lr start_lr end_lr f epoch_size).lrs.length =
        (find_lr start_lr end_lr f epoch_size).losses_gen_loss.length ∧
      (find_lr start_lr end_lr f epoch_size).lrs.length =
        (find_lr start_lr end_lr f epoch_size).losses_disc_loss.length := by
  have hm := one_lt_lr_mult h0 h1 hn
  have hinit : LrRecordInvariant (find_lr_init (R := ℝ) start_lr) :=
    ⟨h0, by simp [find_lr_init], by simp [find_lr_init], by simp [find_lr_init],
      by simp [find_lr_init], by simp [find_lr_init]⟩
  have h := find_lr_loop_invariant hm f epoch_size 0 _ hinit
  exact ⟨hm, h.2.2.1, h.2.2.2.1, h.2.2.2.2.1, h.2.2.2.2.2⟩

/-- Witness for `find_lr_lrs_strictly_increasing` at `start_lr = 1`,
`end_lr = 4`, one batch per epoch. -/
theorem find_lr_lrs_strictly_increasing_witness :
    1 < lr_mult 1 4 1 ∧
      (find_lr 1 4 (fun _ => ⟨1, 1, 1⟩) 1).lrs.Pairwise (· < ·) ∧
      (find_lr 1 4 (fun _ => ⟨1, 1, 1⟩) 1).lrs.length =
        (find_lr 1 4 (fun _ => ⟨1, 1, 1⟩) 1).losses_gen_mae.length ∧
      (find_lr 1 4 (fun _ => ⟨1, 1, 1⟩) 1).lrs.length =
        (find_lr 1 4 (fun _ => ⟨1, 1, 1⟩) 1).losses_gen_loss.length ∧
      (find_lr 1 4 (fun _ => ⟨1, 1, 1⟩) 1).lrs.length =
        (find_lr 1 4 (fun _ => ⟨1, 1, 1⟩) 1).losses_disc_loss.length :=
  find_lr_lrs_strictly_increasing 1 4 (fun _ => ⟨1, 1, 1⟩) 1 (by norm_num)
    (by norm_num) (by norm_num)

theorem lookup_filter_ne {P D Ph : Type} {k k2 : FileKey} (h : k2 ≠ k)
    (fs : List (FileKey × FileData P D Ph)) :
    (fs.filter (fun e => !decide (e.1 = k))).lookup k2 = fs.lookup k2 := by
  induction fs with
  | nil => rfl
  | cons a fs ih =>
    obtain ⟨a1, a2⟩ := a
    by_cases ha : a1 = k
    · subst ha
      have hk : (k2 == a1) = false := beq_eq_false_iff_ne.mpr h
      simp [List.filter_cons, List.lookup, hk, ih]
    · by_cases h2 : k2 = a1
      · subst h2
        simp [List.filter_cons, ha, List.lookup]
      · have hk : (k2 == a1) = false := beq_eq_false_iff_ne.mpr h2
        simp [List.filter_cons, ha, List.lookup, hk, ih]

theorem fsWrite_lookup_self {P D Ph : Type} (fs : List (FileKey × FileData P D Ph))
    (k : FileKey) (v : FileData P D Ph) : (fsWrite fs k v).lookup k = some v := by
  simp [fsWrite, List.lookup]

theorem fsWrite_lookup_ne {P D Ph : Type} (fs : List (FileKey × FileData P D Ph))
    {k k2 : FileKey} (v : FileData P D Ph) (h : k2 ≠ k) :
    (fsWrite fs k v).lookup k2 = fs.lookup k2 := by
  have hk : (k2 == k) = false := beq_eq_false_iff_ne.mpr h
  rw [fsWrite, List.lookup, hk]
  exact lookup_filter_ne h fs

theorem fsWrite_countP_self {P D Ph : Type} (fs : List (FileKey × FileData P D Ph))
    (k : FileKey) (v : FileData P D Ph) :
    (fsWrite fs k v).countP (fun x => decide (x.1 = k)) = 1 := by
  have h0 : (fs.filter (fun x => !decide (x.1 = k))).countP (fun x => decide (x.1 = k)) = 0 := by
    rw [List.countP_eq_zero]
    intro a ha
    have h1 := List.of_mem_filter ha
    simp only [Bool.not_eq_true', decide_eq_false_iff_not] at h1
    simpa using h1
  rw [fsWrite, List.countP_cons, h0]
  simp

theorem fsWrite_countP_ne {P D Ph : Type} (fs : List (FileKey × FileData P D Ph))
    {k k2 : FileKey} (v : FileData P D Ph) (h : k2 ≠ k) :
    (fsWrite fs k v).countP (fun x => decide (x.1 = k2)) =
      fs.countP (fun x => decide (x.1 = k2)) := by
  rw [fsWrite, List.countP_cons]
  have hk : (decide (k = k2)) = false := decide_eq_false (Ne.symm h)
  simp only [hk, if_false, add_zero, Bool.and_false]
  rw [List.countP_filter]
  refine List.countP_congr ?_
  intro a _
  by_cases h2 : a.1 = k2
  · have : a.1 ≠ k := by rw [h2]; exact h
    simp [h2, this, h]
  · simp [h2]

theorem train_batches_state {P D Ph : Type} (cfg : TrainConfig P D Ph) (e : ℕ) :
    ∀ (n : ℕ) (acc : TrainState P D Ph × EpochTotals),
      (train_batches cfg e n acc).1.gen_mae_list = acc.1.gen_mae_list ∧
      (train_batches cfg e n acc).1.gen_mae_val_list = acc.1.gen_mae_val_list ∧
      (train_batches cfg e n acc).1.gen_loss_list = acc.1.gen_loss_list ∧
      (train_batches cfg e n acc).1.gen_loss_val_list = acc.1.gen_loss_val_list ∧
      (train_batches cfg e n acc).1.disc_loss_list = acc.1.disc_loss_list ∧
      (train_batches cfg e n acc).1.disc_loss_val_list = acc.1.disc_loss_val_list ∧
      (train_batches cfg e n acc).1.fs = acc.1.fs ∧
      (train_batches cfg e n acc).2.gen_mae_val_total = acc.2.gen_mae_val_total ∧
      (train_batches cfg e n acc).2.gen_loss_val_total = acc.2.gen_loss_val_total ∧
      (train_batches cfg e n acc).2.disc_loss_val_total = acc.2.disc_loss_val_total ∧
      (train_batches cfg e n acc).1.events =
        acc.1.events ++ (List.replicate n batchTapeEvents).flatten
  | 0, acc => by simp [train_batches]
  | n + 1, acc => by
    have ih := train_batches_state cfg e n acc
    simp only [train_batches, train_batch]
    refine ⟨ih.1, ih.2.1, ih.2.2.1, ih.2.2.2.1, ih.2.2.2.2.1, ih.2.2.2.2.2.1,
      ih.2.2.2.2.2.2.1, ih.2.2.2.2.2.2.2.1, ih.2.2.2.2.2.2.2.2.1,
      ih.2.2.2.2.2.2.2.2.2.1, ?_⟩
    rw [ih.2.2.2.2.2.2.2.2.2.2, List.replicate_succ', List.flatten_append]
    simp

theorem train_epoch_events {P D Ph : Type} (cfg : TrainConfig P D Ph) (e : ℕ)
    (st : TrainState P D Ph) :
    (train_epoch cfg e st).events =
      st.events ++ (List.replicate cfg.epoch_size batchTapeEvents).flatten := by
  have h := train_batches_state cfg e cfg.epoch_size (st, ⟨0, 0, 0, 0, 0, 0⟩)
  simpa [train_epoch] using h.2.2.2.2.2.2.2.2.2.2

/-- C1 (amended): every batch of the training loop performs a single combined
step, opening the generator tape and the discriminator tape and then applying
the generator's gradients once and the discriminator's gradients once; there
is no second discriminator-only refinement step.  The whole event trace of a
run is this four-event pattern repeated once per batch. -/
theorem train_batch_step_structure {P D Ph : Type} (cfg : TrainConfig P D Ph)
    (p0 : P) (d0 : D) (epochs : ℕ) :
    (train cfg p0 d0 epochs).events =
      (List.replicate (epochs * cfg.epoch_size) batchTapeEvents).flatten := by
  rw [train]
  induction epochs with
  | zero => simp [train_epochs, trainInit]
  | succ n ih =>
    rw [train_epochs, train_epoch_events, ih, Nat.succ_mul, List.replicate_add,
      List.flatten_append]

/-- Counterexample to C1 as stated: in a concrete one-epoch, one-batch run,
the event trace opens two gradient tapes (not one capturing both losses) and
applies the discriminator's gradients exactly once, so there is no second
discriminator-only refinement step after the combined step. -/
theorem train_no_second_disc_step_counterexample :
    (train cexConfig 0 0 1).events =
      [TapeEvent.genTapeOpened, TapeEvent.discTapeOpened,
        TapeEvent.genApplyGradients, TapeEvent.discApplyGradients] ∧
      (train cexConfig 0 0 1).events.count TapeEvent.discApplyGradients = 1 ∧
      ¬ ((train cexConfig 0 0 1).events.count TapeEvent.discApplyGradients = 2) := by
  decide

theorem networksSaved_le_one {P D Ph : Type} (fd : FileData P D Ph) :
    networksSaved fd ≤ 1 := by
  cases fd <;> simp [networksSaved]

theorem train_epoch_checkpoint {P D Ph : Type} (cfg : TrainConfig P D Ph) (e : ℕ)
    (st : TrainState P D Ph) :
    (train_epoch cfg e st).fs.lookup FileKey.generatorH5 =
        some (FileData.genWeights (train_epoch cfg e st).genParams) ∧
      (train_epoch cfg e st).fs.lookup FileKey.discriminatorH5 =
        some (FileData.discWeights (train_epoch cfg e st).discParams) ∧
      (train_epoch cfg e st).fs.countP (fun x => decide (x.1 = FileKey.generatorH5)) = 1 ∧
      (train_epoch cfg e st).fs.countP (fun x => decide (x.1 = FileKey.discriminatorH5)) = 1 := by
  simp only [train_epoch]
  refine ⟨?_, ?_, ?_, ?_⟩
  · rw [fsWrite_lookup_ne _ _ (by decide), fsWrite_lookup_self]
  · rw [fsWrite_lookup_self]
  · rw [fsWrite_countP_ne _ _ (by decide), fsWrite_countP_self]
  · rw [fsWrite_countP_self]

/-- C2 (amended): every checkpoint save of `train` persists the weights of
this trainer's two sub-networks, one generator and one discriminator, as two
separate single-network files with no optimizer state; each epoch's save
overwrites the previous files, so after any positive number of epochs exactly
one copy of `generator.h5` and one copy of `discriminator.h5` are retained,
holding the current weights, and no retained file bundles more than one
network. -/
theorem train_checkpoint_save {P D Ph : Type} (cfg : TrainConfig P D Ph)
    (p0 : P) (d0 : D) (k : ℕ) :
    (train cfg p0 d0 (k + 1)).fs.lookup FileKey.generatorH5 =
        some (FileData.genWeights (train cfg p0 d0 (k + 1)).genParams) ∧
      (train cfg p0 d0 (k + 1)).fs.lookup FileKey.discriminatorH5 =
        some (FileData.discWeights (train cfg p0 d0 (k + 1)).discParams) ∧
      (train cfg p0 d0 (k + 1)).fs.countP (fun x => decide (x.1 = FileKey.generatorH5)) = 1 ∧
      (train cfg p0 d0 (k + 1)).fs.countP (fun x => decide (x.1 = FileKey.discriminatorH5)) = 1 ∧
      ∀ x ∈ (train cfg p0 d0 (k + 1)).fs, networksSaved x.2 ≤ 1 := by
  have h := train_epoch_checkpoint cfg k (train_epochs cfg k (trainInit p0 d0))
  have htr : train cfg p0 d0 (k + 1) = train_epoch cfg k (train_epochs cfg k (trainInit p0 d0)) :=
    rfl
  rw [htr]
  exact ⟨h.1, h.2.1, h.2.2.1, h.2.2.2, fun x _ => networksSaved_le_one x.2⟩

/-- Counterexample to C2 as stated: in a concrete one-epoch run, no retained
file persists the weights of more than one sub-network, so no checkpoint save
persists two generators and two discriminators (with optimizer state) jointly
as one atomic unit. -/
theorem train_checkpoint_not_joint_counterexample :
    ¬ ∃ e ∈ (train cexConfig 0 0 1).fs, 2 ≤ networksSaved e.2 := by
  decide

theorem train_epoch_val_lists {P D Ph : Type} (cfg : TrainConfig P D Ph) (e : ℕ)
    (st : TrainState P D Ph) :
    (train_epoch cfg e st).gen_mae_val_list = st.gen_mae_val_list ++ [0] ∧
      (train_epoch cfg e st).gen_loss_val_list = st.gen_loss_val_list ++ [0] ∧
      (train_epoch cfg e st).disc_loss_val_list = st.disc_loss_val_list ++ [0] := by
  have h := train_batches_state cfg e cfg.epoch_size (st, ⟨0, 0, 0, 0, 0, 0⟩)
  refine ⟨?_, ?_, ?_⟩
  · simp only [train_epoch]
    rw [h.2.1, h.2.2.2.2.2.2.2.1]
    simp
  · simp only [train_epoch]
    rw [h.2.2.2.1, h.2.2.2.2.2.2.2.2.1]
    simp
  · simp only [train_epoch]
    rw [h.2.2.2.2.2.1, h.2.2.2.2.2.2.2.2.2.1]
    simp

theorem train_epoch_history {P D Ph : Type} (cfg : TrainConfig P D Ph) (e : ℕ)
    (st : TrainState P D Ph) :
    (train_epoch cfg e st).fs.lookup FileKey.historyCsv =
      some (FileData.historyCsv (train_epoch cfg e st).gen_mae_list
        (train_epoch cfg e st).gen_mae_val_list (train_epoch cfg e st).gen_loss_list
        (train_epoch cfg e st).gen_loss_val_list (train_epoch cfg e st).disc_loss_list
        (train_epoch cfg e st).disc_loss_val_list) := by
  simp only [train_epoch]
  rw [fsWrite_lookup_ne _ _ (by simp), fsWrite_lookup_ne _ _ (by simp),
    fsWrite_lookup_ne _ _ (by simp), fsWrite_lookup_ne _ _ (by simp),
    fsWrite_lookup_ne _ _ (by simp), fsWrite_lookup_ne _ _ (by simp),
    fsWrite_lookup_self]

theorem train_epochs_val_lists {P D Ph : Type} (cfg : TrainConfig P D Ph)
    (p0 : P) (d0 : D) : ∀ n : ℕ,
    (train_epochs cfg n (trainInit p0 d0)).gen_mae_val_list = List.replicate n 0 ∧
      (train_epochs cfg n (trainInit p0 d0)).gen_loss_val_list = List.replicate n 0 ∧
      (train_epochs cfg n (trainInit p0 d0)).disc_loss_val_list = List.replicate n 0
  | 0 => by simp [train_epochs, trainInit]
  | n + 1 => by
    have ih := train_epochs_val_lists cfg p0 d0 n
    have he := train_epoch_val_lists cfg n (train_epochs cfg n (trainInit p0 d0))
    rw [train_epochs]
    refine ⟨?_, ?_, ?_⟩
    · rw [he.1, ih.1, List.replicate_succ']
    · rw [he.2.1, ih.2.1, List.replicate_succ']
    · rw [he.2.2, ih.2.2, List.replicate_succ']

/-- C10: in `train`, the validation totals are initialized to 0 and never
updated, so in the `history.csv` written at the end of every epoch the three
columns `gen_mae_val`, `gen_loss_val` and `disc_loss_val` are 0 in every row:
after any `k + 1` epochs, the retained `history.csv` (written at epoch
`k + 1`) has validation columns equal to `k + 1` zeros. -/
theorem train_history_val_columns_zero {P D Ph : Type} (cfg : TrainConfig P D Ph)
    (p0 : P) (d0 : D) (k : ℕ) :
    historyValColumns ((train cfg p0 d0 (k + 1)).fs.lookup FileKey.historyCsv) =
      some (List.replicate (k + 1) 0, List.replicate (k + 1) 0,
        List.replicate (k + 1) 0) := by
  have htr : train cfg p0 d0 (k + 1) =
      train_epoch cfg k (train_epochs cfg k (trainInit p0 d0)) := rfl
  have h := train_epoch_history cfg k (train_epochs cfg k (trainInit p0 d0))
  have hv := train_epochs_val_lists cfg p0 d0 (k + 1)
  rw [train_epochs] at hv
  rw [htr, h, historyValColumns, hv.1, hv.2.1, hv.2.2]

theorem train_epoch_audio_self {P D Ph : Type} (cfg : TrainConfig P D Ph) (e : ℕ)
    (st : TrainState P D Ph) :
    (train_epoch cfg e st).fs.lookup (FileKey.audioWav (e + 1 + cfg.epoch_offset)) =
      some (FileData.audioWav cfg.phase) := by
  simp only [train_epoch]
  rw [fsWrite_lookup_ne _ _ (by simp), fsWrite_lookup_ne _ _ (by simp),
    fsWrite_lookup_self]

theorem train_epoch_audio_other {P D Ph : Type} (cfg : TrainConfig P D Ph) (e : ℕ)
    (st : TrainState P D Ph) (m : ℕ) (hne : m ≠ e + 1 + cfg.epoch_offset) :
    (train_epoch cfg e st).fs.lookup (FileKey.audioWav m) =
      st.fs.lookup (FileKey.audioWav m) := by
  have h := train_batches_state cfg e cfg.epoch_size (st, ⟨0, 0, 0, 0, 0, 0⟩)
  simp only [train_epoch]
  rw [fsWrite_lookup_ne _ _ (by simp), fsWrite_lookup_ne _ _ (by simp),
    fsWrite_lookup_ne _ _ (by simpa using hne), fsWrite_lookup_ne _ _ (by simp),
    fsWrite_lookup_ne _ _ (by simp), fsWrite_lookup_ne _ _ (by simp),
    fsWrite_lookup_ne _ _ (by simp), h.2.2.2.2.2.2.1]

/-- C8: the phase tensor is computed once by `forward_transform` on the test
audio before the epoch loop and is only carried through: for every epoch of a
training run, the audio written for that epoch is reconstructed with exactly
that phase tensor. -/
theorem train_phase_carried {P D Ph : Type} (cfg : TrainConfig P D Ph)
    (p0 : P) (d0 : D) : ∀ epochs e : ℕ, e < epochs →
    (train cfg p0 d0 epochs).fs.lookup (FileKey.audioWav (e + 1 + cfg.epoch_offset)) =
      some (FileData.audioWav cfg.phase)
  | 0, e, h => absurd h (Nat.not_lt_zero e)
  | n + 1, e, h => by
    have htr : train cfg p0 d0 (n + 1) = train_epoch cfg n (train cfg p0 d0 n) := rfl
    rw [htr]
    by_cases he : e = n
    · subst he
      exact train_epoch_audio_self cfg e (train cfg p0 d0 e)
    · rw [train_epoch_audio_other cfg n _ _ (by omega)]
      exact train_phase_carried cfg p0 d0 n e (by omega)

/-- Witness for `train_phase_carried`: in a concrete one-epoch run, the audio
of epoch 1 carries the input phase. -/
theorem train_phase_carried_witness :
    (train cexConfig 0 0 1).fs.lookup (FileKey.audioWav 1) =
      some (FileData.audioWav 0) :=
  train_phase_carried cexConfig 0 0 1 0 (by decide)

/-- C7: both entry points raise on missing required CLI arguments: the
CycleGAN trainer raises whenever `--dataset_path`, `--origin` or `--target`
is absent, and the genre-classifier `main` raises when `type` is neither
`train` nor `test`, when `--directory` is falsy in train mode, and when
`--model` or `--song` is falsy in test mode. -/
theorem cli_argument_validation :
    (∀ provided : List String, "dataset_path" ∉ provided →
        raises (parse_args provided) = true) ∧
      (∀ provided : List String, "origin" ∉ provided →
        raises (parse_args provided) = true) ∧
      (∀ provided : List String, "target" ∉ provided →
        raises (parse_args provided) = true) ∧
      (∀ a : GtzanArgs, a.type ≠ "train" → a.type ≠ "test" →
        raises (gtzan_main a) = true) ∧
      (∀ a : GtzanArgs, a.type = "train" → falsy a.directory = true →
        raises (gtzan_main a) = true) ∧
      (∀ a : GtzanArgs, a.type = "test" → falsy a.model = true →
        raises (gtzan_main a) = true) ∧
      (∀ a : GtzanArgs, a.type = "test" → falsy a.song = true →
        raises (gtzan_main a) = true) := by
  refine ⟨?_, ?_, ?_, ?_, ?_, ?_, ?_⟩
  · intro provided h
    simp [parse_args, trainer_arg_specs, List.find?, h, raises]
  · intro provided h
    by_cases h1 : "dataset_path" ∈ provided
    · simp [parse_args, trainer_arg_specs, List.find?, h, h1, raises]
    · simp [parse_args, trainer_arg_specs, List.find?, h1, raises]
  · intro provided h
    by_cases h1 : "dataset_path" ∈ provided
    · by_cases h2 : "origin" ∈ provided
      · simp [parse_args, trainer_arg_specs, List.find?, h, h1, h2, raises]
      · simp [parse_args, trainer_arg_specs, List.find?, h1, h2, raises]
    · simp [parse_args, trainer_arg_specs, List.find?, h1, raises]
  · intro a h1 h2
    simp [gtzan_main, List.contains_cons, h1, h2, raises]
  · intro a h1 h2
    simp [gtzan_main, h1, h2, raises]
  · intro a h1 h2
    simp [gtzan_main, h1, h2, raises]
  · intro a h1 h2
    by_cases h3 : falsy a.model = true
    · simp [gtzan_main, h1, h3, raises]
    · simp [gtzan_main, h1, h3, h2, raises]

/-- Witness for `cli_argument_validation` at concrete argument vectors. -/
theorem cli_argument_validation_witness :
    raises (parse_args []) = true ∧
      raises (parse_args ["dataset_path"]) = true ∧
      raises (parse_args ["dataset_path", "origin"]) = true ∧
      raises (gtzan_main ⟨"foo", none, none, none⟩) = true ∧
      raises (gtzan_main ⟨"train", none, none, none⟩) = true ∧
      raises (gtzan_main ⟨"test", none, none, none⟩) = true ∧
      raises (gtzan_main ⟨"test", none, some "m", none⟩) = true :=
  ⟨cli_argument_validation.1 [] (by decide),
    cli_argument_validation.2.1 ["dataset_path"] (by decide),
    cli_argument_validation.2.2.1 ["dataset_path", "origin"] (by decide),
    cli_argument_validation.2.2.2.1 ⟨"foo", none, none, none⟩ (by decide) (by decide),
    cli_argument_validation.2.2.2.2.1 ⟨"train", none, none, none⟩ rfl rfl,
    cli_argument_validation.2.2.2.2.2.1 ⟨"test", none, none, none⟩ rfl rfl,
    cli_argument_validation.2.2.2.2.2.2 ⟨"test", none, some "m", none⟩ rfl rfl⟩

theorem sliceChunks_flatten_length (w h : ℕ) (hw : 0 < w) :
    ∀ (fuel : ℕ) (cols : List (List ℚ)), cols.length ≤ fuel →
      cols.length ≤ ((sliceChunks w fuel cols).map (padWindow w h)).flatten.length
  | 0, cols, hle => by
    have hnil : cols = [] := List.eq_nil_of_length_eq_zero (Nat.le_zero.mp hle)
    subst hnil
    simp [sliceChunks]
  | fuel + 1, cols, hle => by
    cases cols with
    | nil => simp [sliceChunks]
    | cons c cs =>
      have hd : ((c :: cs).drop w).length ≤ fuel := by
        simp only [List.length_drop, List.length_cons]
        simp only [List.length_cons] at hle
        omega
      have hrec := sliceChunks_flatten_length w h hw fuel ((c :: cs).drop w) hd
      have hpad : (padWindow w h ((c :: cs).take w)).length = w := by
        simp only [padWindow, List.length_append, List.length_replicate, List.length_take]
        omega
      simp only [sliceChunks, List.map_cons, List.flatten_cons, List.length_append, hpad,
        List.length_cons]
      simp only [List.length_drop, List.length_cons] at hrec
      omega

theorem sliceChunks_flatten_heights (w h : ℕ) :
    ∀ (fuel : ℕ) (cols : List (List ℚ)), (∀ c ∈ cols, c.length = h) →
      ∀ c ∈ ((sliceChunks w fuel cols).map (padWindow w h)).flatten, c.length = h
  | 0, cols, _, c, hm => by simp [sliceChunks] at hm
  | fuel + 1, cols, hc, c, hm => by
    cases cols with
    | nil => simp [sliceChunks] at hm
    | cons a cs =>
      simp only [sliceChunks, List.map_cons, List.flatten_cons, List.mem_append] at hm
      rcases hm with hm | hm
      · simp only [padWindow, List.mem_append] at hm
        rcases hm with hm | hm
        · exact hc c (List.take_subset w (a :: cs) hm)
        · rw [List.eq_of_mem_replicate hm]
          exact List.length_replicate h 0
      · exact sliceChunks_flatten_heights w h fuel ((a :: cs).drop w)
          (fun x hx => hc x (List.drop_subset w (a :: cs) hx)) c hm

/-- C5: slicing a magnitude spectrogram of shape `(h, T)` into fixed-size
windows of `w` frames with `slice_magnitude` (the final partial window padded
with zero frames) and rejoining the windows with `join_magnitude_slices`,
given the original phase shape `(h, T)`, reproduces the original spectrogram
shape exactly: `T` frames, each of height `h`. -/
theorem slice_join_shape (w h T : ℕ) (mag : List (List ℚ)) (hw : 0 < w)
    (hT : mag.length = T) (hh : ∀ c ∈ mag, c.length = h) :
    (join_magnitude_slices (slice_magnitude w h mag) (h, T)).length = T ∧
      ∀ c ∈ join_magnitude_slices (slice_magnitude w h mag) (h, T),
        c.length = h := by
  constructor
  · have hlen := sliceChunks_flatten_length w h hw mag.length mag le_rfl
    rw [join_magnitude_slices, slice_magnitude, List.length_take]
    omega
  · intro c hm
    have hsub : c ∈ (slice_magnitude w h mag).flatten :=
      List.take_subset _ _ hm
    rw [slice_magnitude] at hsub
    exact sliceChunks_flatten_heights w h mag.length mag hh c hsub

/-- Witness for `slice_join_shape`: a 1-by-3 spectrogram sliced into windows
of 2 frames and rejoined keeps its shape. -/
theorem slice_join_shape_witness :
    (join_magnitude_slices (slice_magnitude 2 1 [[0], [0], [0]]) (1, 3)).length = 3 ∧
      ∀ c ∈ join_magnitude_slices (slice_magnitude 2 1 [[0], [0], [0]]) (1, 3),
        c.length = 1 :=
  slice_join_shape 2 1 3 [[0], [0], [0]] (by decide) (by decide) (by decide)

theorem forward_transform_phase_abs {N : ℕ} [NeZero N] (audio : ZMod N → ℂ)
    (k : ZMod N) : Complex.abs ((forward_transform audio).2 k) = 1 := by
  simp only [forward_transform]
  by_cases h : ZMod.dft audio k = 0
  · rw [if_pos h]
    exact map_one Complex.abs
  · rw [if_neg h, map_div₀, Complex.abs_ofReal,
      abs_of_nonneg (Complex.abs.nonneg _), div_self (Complex.abs.ne_zero h)]

theorem forward_transform_mul {N : ℕ} [NeZero N] (audio : ZMod N → ℂ)
    (k : ZMod N) :
    ((forward_transform audio).1 k : ℂ) * (forward_transform audio).2 k =
      ZMod.dft audio k := by
  simp only [forward_transform]
  by_cases h : ZMod.dft audio k = 0
  · rw [if_pos h, h]
    simp
  · rw [if_neg h]
    have hc : (Complex.abs (ZMod.dft audio k) : ℂ) ≠ 0 := by
      simpa using Complex.abs.ne_zero h
    rw [mul_comm, div_mul_cancel₀ _ hc]

/-- Exact round-trip of the modelled codec without the dB conversion: the
inverse transform of the magnitude and phase produced by the forward
transform is the original waveform. -/
theorem codec_roundtrip_exact {N : ℕ} [NeZero N] (audio : ZMod N → ℂ) :
    inverse_transform (forward_transform audio).1 (forward_transform audio).2 =
      audio := by
  rw [inverse_transform]
  have h : (fun k => ((forward_transform audio).1 k : ℂ) *
      (forward_transform audio).2 k) = ZMod.dft audio :=
    funext fun k => forward_transform_mul audio k
  rw [h, LinearEquiv.symm_apply_apply]

theorem db_to_amplitude_amplitude_to_db (amin m : ℝ) (ha : 0 < amin) :
    db_to_amplitude (amplitude_to_db amin m) = max m amin := by
  have hx : 0 < max m amin := lt_of_lt_of_le ha (le_max_right m amin)
  rw [amplitude_to_db, db_to_amplitude, mul_comm, mul_div_assoc,
    div_self (by norm_num : (20 : ℝ) ≠ 0), mul_one]
  exact Real.rpow_logb (by norm_num) (by norm_num) hx

theorem invDFT_abs_le {N : ℕ} [NeZero N] (Ψ : ZMod N → ℂ) (C : ℝ)
    (h : ∀ k, Complex.abs (Ψ k) ≤ C) (j : ZMod N) :
    Complex.abs (ZMod.dft.symm Ψ j) ≤ C := by
  rw [ZMod.invDFT_apply, smul_eq_mul, map_mul]
  have h1 : Complex.abs ((N : ℂ)⁻¹) = ((N : ℝ))⁻¹ := by
    rw [map_inv₀, Complex.abs_natCast]
  have h2 : Complex.abs (∑ k : ZMod N, ZMod.stdAddChar (k * j) • Ψ k) ≤
      (N : ℝ) * C := by
    refine le_trans (Complex.abs.sum_le _ _) ?_
    have h3 : ∀ k : ZMod N, Complex.abs (ZMod.stdAddChar (k * j) • Ψ k) ≤ C := by
      intro k
      rw [smul_eq_mul, map_mul, ZMod.stdAddChar_apply, Circle.abs_coe, one_mul]
      exact h k
    calc ∑ k : ZMod N, Complex.abs (ZMod.stdAddChar (k * j) • Ψ k)
        ≤ ∑ _k : ZMod N, C := Finset.sum_le_sum fun k _ => h3 k
      _ = (N : ℝ) * C := by
          rw [Finset.sum_const, Finset.card_univ, ZMod.card, nsmul_eq_mul]
  rw [h1]
  have hN : ((N : ℝ)) ≠ 0 := Nat.cast_ne_zero.mpr (NeZero.ne N)
  calc ((N : ℝ))⁻¹ * Complex.abs (∑ k : ZMod N, ZMod.stdAddChar (k * j) • Ψ k)
      ≤ ((N : ℝ))⁻¹ * ((N : ℝ) * C) := by
        refine mul_le_mul_of_nonneg_left h2 ?_
        positivity
    _ = C := by rw [inv_mul_cancel_left₀ hN]

theorem abs_max_sub_le {x a : ℝ} (hx : 0 ≤ x) (ha : 0 < a) :
    |max x a - x| ≤ a := by
  rcases le_total a x with h | h
  · rw [max_eq_left h, sub_self, abs_zero]
    exact le_of_lt ha
  · rw [max_eq_right h, abs_of_nonneg (by linarith)]
    linarith

/-- C6: for every input waveform, encoding it via `forward_transform` into
magnitude and phase, converting the magnitude with `amplitude_to_db` (dB
floor `amin > 0`), then inverting with `db_to_amplitude` and
`inverse_transform` reconstructs the original waveform within a bounded
numeric tolerance: every sample of the reconstruction is within `amin` of
the corresponding original sample; the only loss is the dB floor clamp on
magnitudes below `amin`. -/
theorem codec_db_roundtrip_bounded {N : ℕ} [NeZero N] (audio : ZMod N → ℂ)
    (amin : ℝ) (ha : 0 < amin) (j : ZMod N) :
    Complex.abs
      (inverse_transform
          (fun k => db_to_amplitude (amplitude_to_db amin ((forward_transform audio).1 k)))
          (forward_transform audio).2 j - audio j) ≤ amin := by
  have haudio : audio = ZMod.dft.symm
      (fun k => ((forward_transform audio).1 k : ℂ) * (forward_transform audio).2 k) := by
    have h := codec_roundtrip_exact audio
    rw [inverse_transform] at h
    exact h.symm
  simp only [inverse_transform]
  set m := (forward_transform audio).1 with hm
  set p := (forward_transform audio).2 with hp
  rw [haudio]
  have hmag : (fun k => (db_to_amplitude (amplitude_to_db amin (m k)) : ℂ) * p k) =
      fun k => ((max (m k) amin : ℝ) : ℂ) * p k := by
    funext k
    rw [db_to_amplitude_amplitude_to_db amin (m k) ha]
  rw [hmag]
  have hFG : (fun k => ((max (m k) amin : ℝ) : ℂ) * p k) -
      (fun k => (m k : ℂ) * p k) =
      fun k => ((max (m k) amin - m k : ℝ) : ℂ) * p k := by
    funext k
    rw [Pi.sub_apply, Complex.ofReal_sub, sub_mul]
  have hsub : ZMod.dft.symm (fun k => ((max (m k) amin : ℝ) : ℂ) * p k) j -
      ZMod.dft.symm (fun k => (m k : ℂ) * p k) j =
      ZMod.dft.symm (fun k => ((max (m k) amin - m k : ℝ) : ℂ) * p k) j := by
    rw [← hFG, map_sub]
    rfl
  rw [hsub]
  refine invDFT_abs_le _ amin ?_ j
  intro k
  rw [map_mul, Complex.abs_ofReal, hp, forward_transform_phase_abs audio k, mul_one]
  refine abs_max_sub_le ?_ ha
  rw [hm]
  exact Complex.abs.nonneg _

/-- Witness for `codec_db_roundtrip_bounded` on a length-1 waveform with dB
floor 1. -/
theorem codec_db_roundtrip_bounded_witness :
    Complex.abs
      (inverse_transform
          (fun k => db_to_amplitude (amplitude_to_db 1
            ((forward_transform (fun _ : ZMod 1 => (0 : ℂ))).1 k)))
          (forward_transform (fun _ : ZMod 1 => (0 : ℂ))).2 0 -
        (fun _ : ZMod 1 => (0 : ℂ)) 0) ≤ 1 :=
  codec_db_roundtrip_bounded (fun _ => 0) 1 one_pos 0

end AiaMusic
